import Mathlib

/-!
# Verification of the event registration backend (`src/models/Event.js`)

Shallow embedding of the Express/Mongoose event routes:

* the `Event` Mongoose schema (title, description, date, location,
  capacity, image, attendees, createdBy);
* `POST /register/:id` — race-safe RSVP via one `findOneAndUpdate` whose
  filter combines `_id`, `attendees: {$ne: userId}` (no duplicate) and
  `$expr: {$lt: [{$size: "$attendees"}, "$capacity"]}` (capacity), with
  update `{$addToSet: {attendees: userId}}` and `{new: true}`;
* `DELETE /register/:id` — `findByIdAndUpdate` with `{$pull: {attendees:
  userId}}` and `{new: true}`;
* `POST /` (create), `PUT /:id` (owner-only update), `DELETE /:id`
  (owner-only delete).

The persisted MongoDB collection is modelled as a function from document
ids to optional documents; each route handler becomes a pure function from
a store (plus the request data the middleware extracts: `req.userId`,
`req.params.id`, `req.body`) to a response value and the successor store.

Mongo semantics points carried over faithfully:

* `findOneAndUpdate` returns `null` both when the `_id` does not exist and
  when the extra filter conditions fail, so the register route answers the
  same 400 "Event is full or already registered" in both situations;
* in an aggregation `$lt`, a missing `$capacity` field compares below every
  number (BSON comparison order puts missing/null before numbers), so the
  register filter never matches an event whose capacity is unset;
* `$addToSet` appends the value at the end of the array when absent and
  leaves the array unchanged when present;
* `$pull` removes every matching array element and is a no-op when the
  value is absent; the route 404s only when the `_id` itself is missing.
-/

set_option autoImplicit false

namespace EventBackend

/-- A user identifier (Mongo `ObjectId`, delivered by the auth middleware
as `req.userId`). -/
abbrev UserId := String

/-- An event identifier (Mongo `_id`, delivered as `req.params.id`). -/
abbrev EventId := String

/-- The `Event` Mongoose schema.  `capacity: {type: Number}` is optional,
hence `Option Nat`; `image` is optional; `attendees` is an array of user
ids (defaulting to `[]`); dates are kept as their wire string. -/
structure Event where
  title : String
  description : String
  date : String
  location : String
  capacity : Option Nat
  image : Option String
  attendees : List UserId
  createdBy : UserId
deriving DecidableEq, Repr

/-- The persisted collection: each event id maps to at most one document. -/
def Store := EventId → Option Event

/-- Overwrite (or insert) the document at `eid`. -/
def Store.update (st : Store) (eid : EventId) (ev : Event) : Store :=
  fun i => if i = eid then some ev else st i

/-- Remove the document at `eid` (Mongoose `deleteOne`). -/
def Store.remove (st : Store) (eid : EventId) : Store :=
  fun i => if i = eid then none else st i

/-- The collection with no documents. -/
def emptyStore : Store := fun _ => none

/-- The `$expr: {$lt: [{$size: "$attendees"}, "$capacity"]}` condition of
the register filter.  When `capacity` is missing, BSON comparison order
places the missing value below every number, so the `$lt` is false. -/
def capLt (len : Nat) : Option Nat → Prop
  | some c => len < c
  | none => False

instance (len : Nat) (cap : Option Nat) : Decidable (capLt len cap) :=
  match cap with
  | some c => inferInstanceAs (Decidable (len < c))
  | none => inferInstanceAs (Decidable False)

/-- Mongo `$addToSet`: append the value at the end unless already present. -/
def addToSet (l : List UserId) (u : UserId) : List UserId :=
  if u ∈ l then l else l ++ [u]

/-- Mongo `$pull` with an equality condition: remove every occurrence. -/
def pullAll (u : UserId) : List UserId → List UserId
  | [] => []
  | x :: xs => if x = u then pullAll u xs else x :: pullAll u xs

/-- Outcome of `POST /register/:id`: either 200 with
`{message: "Registered successfully", attendeesCount}` (the count taken
from the `{new: true}` post-update document), or — when `findOneAndUpdate`
matched nothing, because the event id does not exist, the user is already
an attendee, or the capacity comparison failed — 400 with the single
message "Event is full or already registered". -/
inductive RegisterResult where
  | success (attendeesCount : Nat)
  | fullOrDuplicate
deriving DecidableEq, Repr

/-- Outcome of `DELETE /register/:id`: 200 with
`{message: "Unregistered successfully", attendeesCount}` from the
post-update document, or 404 `"Event not found"` when the id is absent. -/
inductive UnregisterResult where
  | success (attendeesCount : Nat)
  | notFound
deriving DecidableEq, Repr

/-- Outcome of `PUT /:id`. -/
inductive UpdateResult where
  | updated (event : Event)
  | notFound
  | unauthorized
deriving DecidableEq, Repr

/-- Outcome of `DELETE /:id`. -/
inductive DeleteResult where
  | deleted
  | notFound
  | unauthorized
deriving DecidableEq, Repr

/-- `POST /register/:id`: one `findOneAndUpdate` whose filter requires the
document with `_id = eventId` to exist, `userId` to be absent from
`attendees`, and `$size(attendees) < capacity`; on match it applies
`$addToSet` and returns the post-update document, else `null` → 400. -/
def register (st : Store) (eventId : EventId) (userId : UserId) :
    RegisterResult × Store :=
  match st eventId with
  | some ev =>
      if userId ∉ ev.attendees ∧ capLt ev.attendees.length ev.capacity then
        let ev' := { ev with attendees := addToSet ev.attendees userId }
        (RegisterResult.success ev'.attendees.length, st.update eventId ev')
      else
        (RegisterResult.fullOrDuplicate, st)
  | none => (RegisterResult.fullOrDuplicate, st)

/-- `DELETE /register/:id`: `findByIdAndUpdate` with `$pull`; `null` (id
absent) → 404, otherwise 200 with the post-update attendee count. -/
def unregister (st : Store) (eventId : EventId) (userId : UserId) :
    UnregisterResult × Store :=
  match st eventId with
  | some ev =>
      let ev' := { ev with attendees := pullAll userId ev.attendees }
      (UnregisterResult.success ev'.attendees.length, st.update eventId ev')
  | none => (UnregisterResult.notFound, st)

/-- `POST /`: build the document from the request body with
`attendees: []` and `createdBy: req.userId`, and save it under a fresh id. -/
def createEvent (st : Store) (eid : EventId) (title description date location : String)
    (capacity : Option Nat) (image : Option String) (creator : UserId) : Store :=
  st.update eid
    { title := title, description := description, date := date,
      location := location, capacity := capacity, image := image,
      attendees := [], createdBy := creator }

/-- The `PUT /:id` request body; `none` models a field that is absent (or
falsy) in `req.body`, matching the `req.body.x || event.x` pattern, and
`image` models an uploaded `req.file`. -/
structure UpdateBody where
  title : Option String
  description : Option String
  date : Option String
  location : Option String
  capacity : Option Nat
  image : Option String
deriving DecidableEq, Repr

/-- The body with every field absent. -/
def UpdateBody.empty : UpdateBody :=
  { title := none, description := none, date := none, location := none,
    capacity := none, image := none }

/-- The field assignments of `PUT /:id`: each `event.x = req.body.x ||
event.x`, plus `if (req.file) event.image = req.file.filename`.  Neither
`attendees` nor `createdBy` is touched. -/
def applyUpdate (ev : Event) (b : UpdateBody) : Event :=
  { ev with
    title := b.title.getD ev.title,
    description := b.description.getD ev.description,
    date := b.date.getD ev.date,
    location := b.location.getD ev.location,
    capacity := match b.capacity with | some c => some c | none => ev.capacity,
    image := match b.image with | some f => some f | none => ev.image }

/-- `PUT /:id`: 404 when the id is absent, 403 when
`event.createdBy.toString() !== req.userId`, otherwise apply the body and
save. -/
def updateEvent (st : Store) (eventId : EventId) (requester : UserId)
    (b : UpdateBody) : UpdateResult × Store :=
  match st eventId with
  | some ev =>
      if ev.createdBy ≠ requester then (UpdateResult.unauthorized, st)
      else (UpdateResult.updated (applyUpdate ev b), st.update eventId (applyUpdate ev b))
  | none => (UpdateResult.notFound, st)

/-- `DELETE /:id`: 404 when the id is absent, 403 for a non-owner,
otherwise `deleteOne`. -/
def deleteEvent (st : Store) (eventId : EventId) (requester : UserId) :
    DeleteResult × Store :=
  match st eventId with
  | some ev =>
      if ev.createdBy ≠ requester then (DeleteResult.unauthorized, st)
      else (DeleteResult.deleted, st.remove eventId)
  | none => (DeleteResult.notFound, st)

/-- One request against the collection, for reasoning about sequences of
operations. -/
inductive Op where
  | register (eid : EventId) (uid : UserId)
  | unregister (eid : EventId) (uid : UserId)
  | create (eid : EventId) (title description date location : String)
      (capacity : Option Nat) (image : Option String) (creator : UserId)
  | update (eid : EventId) (uid : UserId) (body : UpdateBody)
deriving Repr

/-- The store after one request (responses discarded). -/
def applyOp (st : Store) : Op → Store
  | Op.register eid uid => (register st eid uid).2
  | Op.unregister eid uid => (unregister st eid uid).2
  | Op.create eid t d dt loc cap img creator => createEvent st eid t d dt loc cap img creator
  | Op.update eid uid b => (updateEvent st eid uid b).2

/-- The store after a sequence of requests, first request first. -/
def applyOps : Store → List Op → Store
  | st, [] => st
  | st, op :: ops => applyOps (applyOp st op) ops

/-! ## Basic lemmas about the store and the array update operators -/

theorem Store.update_self (st : Store) (eid : EventId) (ev : Event) :
    st.update eid ev eid = some ev := by
  simp [Store.update]

theorem Store.update_other (st : Store) (eid : EventId) (ev : Event)
    {i : EventId} (h : i ≠ eid) : st.update eid ev i = st i := by
  simp [Store.update, h]

theorem Store.update_update (st : Store) (eid : EventId) (a b : Event) :
    (st.update eid a).update eid b = st.update eid b := by
  funext i
  by_cases h : i = eid <;> simp [Store.update, h]

theorem Store.update_cancel {st : Store} {eid : EventId} {ev : Event}
    (h : st eid = some ev) : st.update eid ev = st := by
  funext i
  by_cases hi : i = eid
  · rw [hi]; simp [Store.update, h.symm]
  · simp [Store.update, hi]

theorem capLt_some {len c : Nat} : capLt len (some c) ↔ len < c := Iff.rfl

theorem capLt_none {len : Nat} : ¬ capLt len none := fun h => h

theorem addToSet_of_not_mem {l : List UserId} {u : UserId} (h : u ∉ l) :
    addToSet l u = l ++ [u] := by
  simp [addToSet, h]

theorem addToSet_nodup {l : List UserId} {u : UserId} (h : l.Nodup) :
    (addToSet l u).Nodup := by
  by_cases hm : u ∈ l
  · simpa [addToSet, hm] using h
  · simp [addToSet, hm, List.nodup_append, h]

theorem mem_pullAll {u x : UserId} {l : List UserId} :
    x ∈ pullAll u l ↔ x ∈ l ∧ x ≠ u := by
  induction l with
  | nil => simp [pullAll]
  | cons y ys ih =>
      simp only [pullAll]
      by_cases h : y = u
      · rw [if_pos h]
        subst h
        rw [ih, List.mem_cons]
        constructor
        · exact fun hx => ⟨Or.inr hx.1, hx.2⟩
        · rintro ⟨rfl | hx, hne⟩
          · exact absurd rfl hne
          · exact ⟨hx, hne⟩
      · rw [if_neg h, List.mem_cons, List.mem_cons]
        constructor
        · rintro (rfl | hx)
          · exact ⟨Or.inl rfl, h⟩
          · exact ⟨Or.inr (ih.mp hx).1, (ih.mp hx).2⟩
        · rintro ⟨rfl | hx, hne⟩
          · exact Or.inl rfl
          · exact Or.inr (ih.mpr ⟨hx, hne⟩)

theorem pullAll_of_not_mem {u : UserId} {l : List UserId} (h : u ∉ l) :
    pullAll u l = l := by
  induction l with
  | nil => rfl
  | cons y ys ih =>
      rw [List.mem_cons, not_or] at h
      simp [pullAll, Ne.symm h.1, ih h.2]

theorem pullAll_sublist (u : UserId) (l : List UserId) :
    (pullAll u l).Sublist l := by
  induction l with
  | nil => exact List.Sublist.refl []
  | cons y ys ih =>
      by_cases h : y = u
      · simpa [pullAll, h] using ih.cons y
      · simpa [pullAll, h] using ih.cons₂ y

theorem pullAll_length_le (u : UserId) (l : List UserId) :
    (pullAll u l).length ≤ l.length :=
  (pullAll_sublist u l).length_le

theorem pullAll_nodup {u : UserId} {l : List UserId} (h : l.Nodup) :
    (pullAll u l).Nodup :=
  h.sublist (pullAll_sublist u l)

theorem pullAll_idem (u : UserId) (l : List UserId) :
    pullAll u (pullAll u l) = pullAll u l :=
  pullAll_of_not_mem (fun h => (mem_pullAll.mp h).2 rfl)

/-! ## Equation lemmas for the route handlers -/

theorem register_eq_of_found {st : Store} {eid : EventId} {u : UserId} {ev : Event}
    (hst : st eid = some ev) (h1 : u ∉ ev.attendees)
    (h2 : capLt ev.attendees.length ev.capacity) :
    register st eid u = (RegisterResult.success (ev.attendees.length + 1),
      st.update eid { ev with attendees := ev.attendees ++ [u] }) := by
  simp only [register, hst]
  rw [if_pos ⟨h1, h2⟩, addToSet_of_not_mem h1]
  simp

theorem register_eq_of_reject {st : Store} {eid : EventId} {u : UserId} {ev : Event}
    (hst : st eid = some ev)
    (h : ¬ (u ∉ ev.attendees ∧ capLt ev.attendees.length ev.capacity)) :
    register st eid u = (RegisterResult.fullOrDuplicate, st) := by
  simp only [register, hst]
  rw [if_neg h]

theorem register_eq_of_missing {st : Store} {eid : EventId} {u : UserId}
    (hst : st eid = none) :
    register st eid u = (RegisterResult.fullOrDuplicate, st) := by
  simp only [register, hst]

theorem unregister_eq_of_found {st : Store} {eid : EventId} {u : UserId} {ev : Event}
    (hst : st eid = some ev) :
    unregister st eid u = (UnregisterResult.success (pullAll u ev.attendees).length,
      st.update eid { ev with attendees := pullAll u ev.attendees }) := by
  simp only [unregister, hst]

theorem unregister_eq_of_missing {st : Store} {eid : EventId} {u : UserId}
    (hst : st eid = none) :
    unregister st eid u = (UnregisterResult.notFound, st) := by
  simp only [unregister, hst]

theorem pullAll_append (u : UserId) (l₁ l₂ : List UserId) :
    pullAll u (l₁ ++ l₂) = pullAll u l₁ ++ pullAll u l₂ := by
  induction l₁ with
  | nil => rfl
  | cons y ys ih => by_cases h : y = u <;> simp [pullAll, h, ih]

theorem pullAll_singleton_self (u : UserId) : pullAll u [u] = [] := by
  simp [pullAll]

theorem updateEvent_eq_of_missing {st : Store} {eid : EventId} {r : UserId}
    {b : UpdateBody} (hst : st eid = none) :
    updateEvent st eid r b = (UpdateResult.notFound, st) := by
  simp only [updateEvent, hst]

theorem updateEvent_eq_of_other {st : Store} {eid : EventId} {r : UserId}
    {b : UpdateBody} {ev : Event} (hst : st eid = some ev)
    (h : ev.createdBy ≠ r) :
    updateEvent st eid r b = (UpdateResult.unauthorized, st) := by
  simp only [updateEvent, hst]
  rw [if_pos h]

theorem updateEvent_eq_of_owner {st : Store} {eid : EventId} {r : UserId}
    {b : UpdateBody} {ev : Event} (hst : st eid = some ev)
    (h : ev.createdBy = r) :
    updateEvent st eid r b = (UpdateResult.updated (applyUpdate ev b),
      st.update eid (applyUpdate ev b)) := by
  simp only [updateEvent, hst]
  rw [if_neg (fun hn => hn h)]

theorem deleteEvent_eq_of_other {st : Store} {eid : EventId} {r : UserId}
    {ev : Event} (hst : st eid = some ev) (h : ev.createdBy ≠ r) :
    deleteEvent st eid r = (DeleteResult.unauthorized, st) := by
  simp only [deleteEvent, hst]
  rw [if_pos h]

/-! ## Concrete documents and stores used to instantiate the theorems -/

def ownerU : UserId := "owner"
def userU : UserId := "u1"
def userV : UserId := "u2"
def userW : UserId := "u3"
def eidA : EventId := "e1"
def eidB : EventId := "e2"

/-- An event with capacity 2 and no attendees yet. -/
def evCap2 : Event :=
  { title := "Meetup", description := "demo", date := "2026-01-01",
    location := "hall", capacity := some 2, image := none,
    attendees := [], createdBy := ownerU }

/-- An event with capacity 1 that is already full. -/
def evFull : Event := { evCap2 with capacity := some 1, attendees := [userU] }

/-- An event created without a capacity value. -/
def evNoCap : Event := { evCap2 with capacity := none }

def st1 : Store := emptyStore.update eidA evCap2
def stFull : Store := emptyStore.update eidA evFull
def stNoCap : Store := emptyStore.update eidA evNoCap

/-! ## C2 — register postcondition -/

/-- C2: on an existing event with a set capacity, `register` inserts the
user and answers the post-insertion attendee count exactly when the user
is not yet an attendee and the attendee count is strictly below capacity;
otherwise it answers the 400 rejection and returns the store unchanged. -/
theorem c2_register_postcondition (st : Store) (eid : EventId) (u : UserId)
    (ev : Event) (c : Nat) (hst : st eid = some ev)
    (hcap : ev.capacity = some c) :
    (u ∉ ev.attendees ∧ ev.attendees.length < c →
      register st eid u = (RegisterResult.success (ev.attendees.length + 1),
        st.update eid { ev with attendees := ev.attendees ++ [u] })) ∧
    (u ∈ ev.attendees ∨ ¬ ev.attendees.length < c →
      register st eid u = (RegisterResult.fullOrDuplicate, st)) := by
  constructor
  · intro h
    exact register_eq_of_found hst h.1 (by rw [hcap]; exact h.2)
  · intro h
    refine register_eq_of_reject hst ?_
    rintro ⟨hnot, hlt⟩
    rw [hcap] at hlt
    rcases h with hmem | hge
    · exact hnot hmem
    · exact hge hlt

theorem c2_register_postcondition_witness :
    register st1 eidA userU = (RegisterResult.success 1,
      Store.update st1 eidA { evCap2 with attendees := [userU] }) :=
  (c2_register_postcondition st1 eidA userU evCap2 2 (by decide) (by decide)).1
    (by decide)

/-! ## C5 — register on a missing event -/

/-- C5 (counterexample): registering on a nonexistent event id yields the
very same outcome value as the capacity/duplicate rejection — the single
400 "Event is full or already registered" — and not a distinguished
"not found" outcome. -/
theorem c5_counterexample :
    emptyStore eidA = none ∧
    (register emptyStore eidA userU).1 = RegisterResult.fullOrDuplicate ∧
    stFull eidA = some evFull ∧ evFull.capacity = some 1 ∧
    evFull.attendees.length = 1 ∧
    (register stFull eidA userV).1 = RegisterResult.fullOrDuplicate := by
  decide

/-- C5 (amended): registering on a nonexistent event id mutates nothing
and answers the same 400 rejection used for full or duplicate
registrations, not a distinguished not-found outcome. -/
theorem c5_register_missing_event (st : Store) (eid : EventId) (u : UserId)
    (hst : st eid = none) :
    register st eid u = (RegisterResult.fullOrDuplicate, st) :=
  register_eq_of_missing hst

theorem c5_register_missing_event_witness :
    register emptyStore eidA userU = (RegisterResult.fullOrDuplicate, emptyStore) :=
  c5_register_missing_event emptyStore eidA userU rfl

/-! ## C8 — events created without a capacity -/

/-- C8 (counterexample): on an event whose capacity is unset, a user not
yet registered is still rejected — the `$lt` against the missing
`$capacity` never matches, so registration does not succeed. -/
theorem c8_counterexample :
    stNoCap eidA = some evNoCap ∧ evNoCap.capacity = none ∧
    userU ∉ evNoCap.attendees ∧
    (register stNoCap eidA userU).1 = RegisterResult.fullOrDuplicate := by
  decide

/-- C8 (amended): on an event whose capacity is unset, every registration
attempt is rejected with the 400 outcome and the store is unchanged: the
filter's `$lt` comparison against a missing `$capacity` is always false,
so registration is restricted to events with a numeric capacity. -/
theorem c8_unset_capacity (st : Store) (eid : EventId) (ev : Event)
    (u : UserId) (hst : st eid = some ev) (hcap : ev.capacity = none) :
    register st eid u = (RegisterResult.fullOrDuplicate, st) := by
  refine register_eq_of_reject hst ?_
  rintro ⟨-, hlt⟩
  rw [hcap] at hlt
  exact hlt

theorem c8_unset_capacity_witness :
    register stNoCap eidA userU = (RegisterResult.fullOrDuplicate, stNoCap) :=
  c8_unset_capacity stNoCap eidA evNoCap userU (by decide) (by decide)

/-! ## C9 — owner-only update and delete -/

/-- C9: when the requester is not the event's creator, `PUT /:id` and
`DELETE /:id` answer 403 Unauthorized and leave the whole store — hence
the event, its capacity and its attendees — unchanged; capacity is
mutable only through the owner's update. -/
theorem c9_owner_only_mutation (st : Store) (eid : EventId)
    (requester : UserId) (b : UpdateBody) (ev : Event)
    (hst : st eid = some ev) (hne : ev.createdBy ≠ requester) :
    updateEvent st eid requester b = (UpdateResult.unauthorized, st) ∧
    deleteEvent st eid requester = (DeleteResult.unauthorized, st) :=
  ⟨updateEvent_eq_of_other hst hne, deleteEvent_eq_of_other hst hne⟩

theorem c9_owner_only_mutation_witness :
    updateEvent st1 eidA userU UpdateBody.empty = (UpdateResult.unauthorized, st1) ∧
    deleteEvent st1 eidA userU = (DeleteResult.unauthorized, st1) :=
  c9_owner_only_mutation st1 eidA userU UpdateBody.empty evCap2 (by decide)
    (by decide)

/-! ## C6 — unregister semantics and idempotence -/

/-- C6: `unregister` answers 404 exactly when the event id does not exist;
on an existing event it removes the user's occurrences and answers the
post-removal attendee count; when the user was not registered it is a
no-op (count and store unchanged); repeating it gives the same answer and
the same store. -/
theorem c6_unregister_semantics (st : Store) (eid : EventId) (u : UserId) :
    ((unregister st eid u).1 = UnregisterResult.notFound ↔ st eid = none) ∧
    (∀ ev, st eid = some ev →
      unregister st eid u =
        (UnregisterResult.success (pullAll u ev.attendees).length,
          st.update eid { ev with attendees := pullAll u ev.attendees }) ∧
      (u ∉ ev.attendees →
        unregister st eid u = (UnregisterResult.success ev.attendees.length, st)) ∧
      unregister (unregister st eid u).2 eid u = unregister st eid u) := by
  constructor
  · cases hst : st eid with
    | none => simp [unregister_eq_of_missing (u := u) hst, hst]
    | some ev => simp [unregister_eq_of_found (u := u) hst, hst]
  · intro ev hst
    refine ⟨unregister_eq_of_found hst, ?_, ?_⟩
    · intro hnm
      rw [unregister_eq_of_found hst, pullAll_of_not_mem hnm]
      exact congrArg (fun s => (UnregisterResult.success ev.attendees.length, s))
        (Store.update_cancel hst)
    · simp [unregister, hst, Store.update_self, Store.update_update, pullAll_idem]

theorem c6_unregister_semantics_witness :
    (unregister stFull eidA userU).1 = UnregisterResult.success 0 ∧
    unregister (unregister stFull eidA userU).2 eidA userU =
      unregister stFull eidA userU := by
  have h := (c6_unregister_semantics stFull eidA userU).2 evFull (by decide)
  refine ⟨?_, h.2.2⟩
  rw [h.1]
  rfl

/-! ## C7 — no permanent lockout -/

/-- C7: on an event with a free seat, register, unregister, register for
one user succeeds at both register steps, each time answering the count
one above the starting count. -/
theorem c7_no_lockout (st : Store) (eid : EventId) (u : UserId) (ev : Event)
    (c : Nat) (hst : st eid = some ev) (hcap : ev.capacity = some c)
    (hnot : u ∉ ev.attendees) (hroom : ev.attendees.length < c) :
    (register st eid u).1 = RegisterResult.success (ev.attendees.length + 1) ∧
    (register (unregister (register st eid u).2 eid u).2 eid u).1 =
      RegisterResult.success (ev.attendees.length + 1) := by
  have hcap' : capLt ev.attendees.length ev.capacity := by rw [hcap]; exact hroom
  have h1 := register_eq_of_found hst hnot hcap'
  constructor
  · rw [h1]
  · rw [h1]
    show (register (unregister
        (st.update eid { ev with attendees := ev.attendees ++ [u] }) eid u).2
        eid u).1 = RegisterResult.success (ev.attendees.length + 1)
    have hst1 : (st.update eid { ev with attendees := ev.attendees ++ [u] }) eid
        = some { ev with attendees := ev.attendees ++ [u] } := Store.update_self ..
    rw [unregister_eq_of_found hst1]
    show (register ((st.update eid { ev with attendees := ev.attendees ++ [u] }).update
        eid { ev with attendees := pullAll u (ev.attendees ++ [u]) }) eid u).1 =
      RegisterResult.success (ev.attendees.length + 1)
    rw [Store.update_update, pullAll_append, pullAll_of_not_mem hnot,
      pullAll_singleton_self, List.append_nil]
    show (register (st.update eid ev) eid u).1 =
      RegisterResult.success (ev.attendees.length + 1)
    rw [Store.update_cancel hst, h1]

theorem c7_no_lockout_witness :
    (register st1 eidA userU).1 = RegisterResult.success 1 ∧
    (register (unregister (register st1 eidA userU).2 eidA userU).2
      eidA userU).1 = RegisterResult.success 1 :=
  c7_no_lockout st1 eidA userU evCap2 2 (by decide) (by decide) (by decide)
    (by decide)

/-! ## C10 — frame property of register and unregister -/

/-- Equality of every `Event` field except `attendees`. -/
def Event.sameMeta (a b : Event) : Prop :=
  a.title = b.title ∧ a.description = b.description ∧ a.date = b.date ∧
  a.location = b.location ∧ a.capacity = b.capacity ∧ a.image = b.image ∧
  a.createdBy = b.createdBy

theorem sameMeta_refl (ev : Event) : ev.sameMeta ev :=
  ⟨rfl, rfl, rfl, rfl, rfl, rfl, rfl⟩

theorem sameMeta_set_attendees (ev : Event) (l : List UserId) :
    ev.sameMeta { ev with attendees := l } :=
  ⟨rfl, rfl, rfl, rfl, rfl, rfl, rfl⟩

/-- C10: `register` and `unregister` touch no document other than the
targeted event, and on the targeted event they change at most the
`attendees` array — every other schema field survives unchanged, whether
the call succeeds or is rejected. -/
theorem c10_frame_property (st : Store) (eid : EventId) (u : UserId) :
    (∀ i, i ≠ eid →
      (register st eid u).2 i = st i ∧ (unregister st eid u).2 i = st i) ∧
    (∀ ev', (register st eid u).2 eid = some ev' →
      ∃ ev, st eid = some ev ∧ ev.sameMeta ev') ∧
    (∀ ev', (unregister st eid u).2 eid = some ev' →
      ∃ ev, st eid = some ev ∧ ev.sameMeta ev') := by
  rcases Option.eq_none_or_eq_some (st eid) with hst | ⟨ev, hst⟩
  ·
      rw [register_eq_of_missing (u := u) hst, unregister_eq_of_missing (u := u) hst]
      refine ⟨fun i _ => ⟨rfl, rfl⟩, ?_, ?_⟩ <;>
        · intro ev' hev'
          have h' : st eid = some ev' := hev'
          rw [hst] at h'
          exact Option.noConfusion h'
  ·
      have hu := unregister_eq_of_found (u := u) hst
      have humeta : ∀ ev', (unregister st eid u).2 eid = some ev' →
          ∃ evo, st eid = some evo ∧ evo.sameMeta ev' := by
        rw [hu]
        intro ev' hev'
        have h2 : (st.update eid { ev with attendees := pullAll u ev.attendees }) eid
            = some ev' := hev'
        rw [Store.update_self] at h2
        injection h2 with h3
        exact ⟨ev, hst, h3 ▸ sameMeta_set_attendees ev _⟩
      by_cases hcond : u ∉ ev.attendees ∧ capLt ev.attendees.length ev.capacity
      · have hr := register_eq_of_found hst hcond.1 hcond.2
        refine ⟨?_, ?_, humeta⟩
        · intro i hi
          rw [hr, hu]
          exact ⟨Store.update_other _ _ _ hi, Store.update_other _ _ _ hi⟩
        · rw [hr]
          intro ev' hev'
          have h2 : (st.update eid { ev with attendees := ev.attendees ++ [u] }) eid
              = some ev' := hev'
          rw [Store.update_self] at h2
          injection h2 with h3
          exact ⟨ev, hst, h3 ▸ sameMeta_set_attendees ev _⟩
      · have hr := register_eq_of_reject hst hcond
        refine ⟨?_, ?_, humeta⟩
        · intro i hi
          rw [hr, hu]
          exact ⟨rfl, Store.update_other _ _ _ hi⟩
        · rw [hr]
          intro ev' hev'
          have h2 : st eid = some ev' := hev'
          rw [hst] at h2
          injection h2 with h3
          exact ⟨ev, hst, h3 ▸ sameMeta_refl ev⟩

theorem c10_frame_property_witness :
    (register st1 eidA userU).2 eidB = st1 eidB ∧
    (unregister st1 eidA userU).2 eidB = st1 eidB :=
  (c10_frame_property st1 eidA userU).1 eidB (by decide)

/-! ## The capacity and no-duplicate invariants over operation sequences -/

/-- Every stored event with a set capacity has at most that many attendees. -/
def CapInv (st : Store) : Prop :=
  ∀ eid ev c, st eid = some ev → ev.capacity = some c →
    ev.attendees.length ≤ c

/-- No stored event lists the same user twice. -/
def NodupInv (st : Store) : Prop :=
  ∀ eid ev, st eid = some ev → ev.attendees.Nodup

/-- An update request is capacity-safe when the capacity it sets (if any)
is at least the attendee count the targeted event has when the request is
applied; all other requests are unconditionally safe. -/
def safeOp (st : Store) : Op → Bool
  | Op.update eid _ b =>
      match st eid, b.capacity with
      | some ev, some c => decide (ev.attendees.length ≤ c)
      | _, _ => true
  | _ => true

/-- A run is capacity-safe when each request is safe in the store it
actually meets. -/
def safeRun : Store → List Op → Bool
  | _, [] => true
  | st, op :: ops => safeOp st op && safeRun (applyOp st op) ops

/-- Writing one document whose capacity bound holds preserves `CapInv`. -/
theorem capInv_update_store {st : Store} (h : CapInv st) {eid : EventId}
    {ev : Event}
    (hev : ∀ c, ev.capacity = some c → ev.attendees.length ≤ c) :
    CapInv (st.update eid ev) := by
  intro i evi c hi hc
  by_cases he : i = eid
  · subst he
    rw [Store.update_self] at hi
    injection hi with hh
    subst hh
    exact hev c hc
  · rw [Store.update_other _ _ _ he] at hi
    exact h _ _ _ hi hc

/-- Writing one duplicate-free document preserves `NodupInv`. -/
theorem nodupInv_update_store {st : Store} (h : NodupInv st) {eid : EventId}
    {ev : Event} (hev : ev.attendees.Nodup) : NodupInv (st.update eid ev) := by
  intro i evi hi
  by_cases he : i = eid
  · subst he
    rw [Store.update_self] at hi
    injection hi with hh
    subst hh
    exact hev
  · rw [Store.update_other _ _ _ he] at hi
    exact h _ _ hi

theorem capInv_register (st : Store) (h : CapInv st) (eid : EventId)
    (u : UserId) : CapInv (register st eid u).2 := by
  rcases Option.eq_none_or_eq_some (st eid) with hst | ⟨ev, hst⟩
  · rw [register_eq_of_missing (u := u) hst]; exact h
  · by_cases hcond : u ∉ ev.attendees ∧ capLt ev.attendees.length ev.capacity
    · rw [register_eq_of_found hst hcond.1 hcond.2]
      show CapInv (st.update eid { ev with attendees := ev.attendees ++ [u] })
      refine capInv_update_store h ?_
      intro c hc
      have hc' : ev.capacity = some c := hc
      have hlt : ev.attendees.length < c := by
        have h2 := hcond.2
        rw [hc'] at h2
        exact h2
      show (ev.attendees ++ [u]).length ≤ c
      rw [List.length_append, List.length_singleton]
      omega
    · rw [register_eq_of_reject hst hcond]; exact h

theorem capInv_unregister (st : Store) (h : CapInv st) (eid : EventId)
    (u : UserId) : CapInv (unregister st eid u).2 := by
  rcases Option.eq_none_or_eq_some (st eid) with hst | ⟨ev, hst⟩
  · rw [unregister_eq_of_missing (u := u) hst]; exact h
  · rw [unregister_eq_of_found hst]
    show CapInv (st.update eid { ev with attendees := pullAll u ev.attendees })
    refine capInv_update_store h ?_
    intro c hc
    have hc' : ev.capacity = some c := hc
    show (pullAll u ev.attendees).length ≤ c
    exact le_trans (pullAll_length_le u ev.attendees) (h _ _ _ hst hc')

theorem capInv_create (st : Store) (h : CapInv st) (eid : EventId)
    (t d dt loc : String) (cap : Option Nat) (img : Option String)
    (cr : UserId) : CapInv (createEvent st eid t d dt loc cap img cr) := by
  show CapInv (st.update eid
    { title := t, description := d, date := dt, location := loc,
      capacity := cap, image := img, attendees := [], createdBy := cr })
  refine capInv_update_store h ?_
  intro c _
  show ([] : List UserId).length ≤ c
  simp

theorem capInv_update (st : Store) (h : CapInv st) (eid : EventId)
    (r : UserId) (b : UpdateBody)
    (hsafe : safeOp st (Op.update eid r b) = true) :
    CapInv (updateEvent st eid r b).2 := by
  rcases Option.eq_none_or_eq_some (st eid) with hst | ⟨ev, hst⟩
  · rw [updateEvent_eq_of_missing hst]; exact h
  · by_cases hown : ev.createdBy = r
    · rw [updateEvent_eq_of_owner hst hown]
      show CapInv (st.update eid (applyUpdate ev b))
      refine capInv_update_store h ?_
      intro c hc
      have hatt : (applyUpdate ev b).attendees = ev.attendees := rfl
      rw [hatt]
      cases hbc : b.capacity with
      | none =>
          have hcap' : (applyUpdate ev b).capacity = ev.capacity := by
            simp [applyUpdate, hbc]
          rw [hcap'] at hc
          exact h _ _ _ hst hc
      | some c' =>
          have hcap' : (applyUpdate ev b).capacity = some c' := by
            simp [applyUpdate, hbc]
          rw [hcap'] at hc
          injection hc with hc
          simp only [safeOp, hst, hbc, decide_eq_true_eq] at hsafe
          rw [← hc]
          exact hsafe
    · rw [updateEvent_eq_of_other hst hown]; exact h

theorem capInv_applyOps (ops : List Op) : ∀ st : Store, CapInv st →
    safeRun st ops = true → CapInv (applyOps st ops) := by
  induction ops with
  | nil => intro st h _; exact h
  | cons op ops ih =>
      intro st h hs
      simp only [safeRun, Bool.and_eq_true] at hs
      have hstep : CapInv (applyOp st op) := by
        cases op with
        | register eid uid => exact capInv_register st h eid uid
        | unregister eid uid => exact capInv_unregister st h eid uid
        | create eid t d dt loc cap img cr =>
            exact capInv_create st h eid t d dt loc cap img cr
        | update eid uid b => exact capInv_update st h eid uid b hs.1
      exact ih (applyOp st op) hstep hs.2

theorem nodupInv_register (st : Store) (h : NodupInv st) (eid : EventId)
    (u : UserId) : NodupInv (register st eid u).2 := by
  rcases Option.eq_none_or_eq_some (st eid) with hst | ⟨ev, hst⟩
  · rw [register_eq_of_missing (u := u) hst]; exact h
  · by_cases hcond : u ∉ ev.attendees ∧ capLt ev.attendees.length ev.capacity
    · rw [register_eq_of_found hst hcond.1 hcond.2]
      show NodupInv (st.update eid { ev with attendees := ev.attendees ++ [u] })
      refine nodupInv_update_store h ?_
      show (ev.attendees ++ [u]).Nodup
      rw [← addToSet_of_not_mem hcond.1]
      exact addToSet_nodup (h _ _ hst)
    · rw [register_eq_of_reject hst hcond]; exact h

theorem nodupInv_unregister (st : Store) (h : NodupInv st) (eid : EventId)
    (u : UserId) : NodupInv (unregister st eid u).2 := by
  rcases Option.eq_none_or_eq_some (st eid) with hst | ⟨ev, hst⟩
  · rw [unregister_eq_of_missing (u := u) hst]; exact h
  · rw [unregister_eq_of_found hst]
    show NodupInv (st.update eid { ev with attendees := pullAll u ev.attendees })
    refine nodupInv_update_store h ?_
    show (pullAll u ev.attendees).Nodup
    exact pullAll_nodup (h _ _ hst)

theorem nodupInv_create (st : Store) (h : NodupInv st) (eid : EventId)
    (t d dt loc : String) (cap : Option Nat) (img : Option String)
    (cr : UserId) : NodupInv (createEvent st eid t d dt loc cap img cr) := by
  show NodupInv (st.update eid
    { title := t, description := d, date := dt, location := loc,
      capacity := cap, image := img, attendees := [], createdBy := cr })
  exact nodupInv_update_store h List.nodup_nil

theorem nodupInv_update (st : Store) (h : NodupInv st) (eid : EventId)
    (r : UserId) (b : UpdateBody) : NodupInv (updateEvent st eid r b).2 := by
  rcases Option.eq_none_or_eq_some (st eid) with hst | ⟨ev, hst⟩
  · rw [updateEvent_eq_of_missing hst]; exact h
  · by_cases hown : ev.createdBy = r
    · rw [updateEvent_eq_of_owner hst hown]
      show NodupInv (st.update eid (applyUpdate ev b))
      refine nodupInv_update_store h ?_
      have hn : ev.attendees.Nodup := h eid ev hst
      exact hn
    · rw [updateEvent_eq_of_other hst hown]; exact h

theorem nodupInv_applyOps (ops : List Op) : ∀ st : Store, NodupInv st →
    NodupInv (applyOps st ops) := by
  induction ops with
  | nil => intro st h; exact h
  | cons op ops ih =>
      intro st h
      have hstep : NodupInv (applyOp st op) := by
        cases op with
        | register eid uid => exact nodupInv_register st h eid uid
        | unregister eid uid => exact nodupInv_unregister st h eid uid
        | create eid t d dt loc cap img cr =>
            exact nodupInv_create st h eid t d dt loc cap img cr
        | update eid uid b => exact nodupInv_update st h eid uid b
      exact ih (applyOp st op) hstep

/-! ## C1 — the capacity invariant -/

/-- C1 (counterexample): create an event with capacity 2, register two
users, then let the owner update the capacity to 1 — the stored event ends
with 2 attendees and capacity 1, so the invariant `|attendees| ≤ capacity`
does not survive every register/unregister/create/update sequence. -/
theorem c1_counterexample :
    ∃ ev, applyOps emptyStore
        [Op.create eidA evCap2.title evCap2.description evCap2.date
           evCap2.location (some 2) none ownerU,
         Op.register eidA userU, Op.register eidA userV,
         Op.update eidA ownerU { UpdateBody.empty with capacity := some 1 }]
        eidA = some ev ∧
      ev.capacity = some 1 ∧ ¬ ev.attendees.length ≤ 1 :=
  ⟨{ evCap2 with capacity := some 1, attendees := [userU, userV] },
    by decide, by decide, by decide⟩

/-- C1 (amended): `|attendees| ≤ capacity` (for events whose capacity is
set) is preserved by every sequence of register, unregister, create and
update requests, provided each update that sets a capacity sets it to at
least the attendee count the targeted event has at that moment — without
that proviso an owner update can push capacity below the attendee count. -/
theorem c1_capacity_invariant (st : Store) (ops : List Op)
    (hinv : CapInv st) (hsafe : safeRun st ops = true) :
    CapInv (applyOps st ops) :=
  capInv_applyOps ops st hinv hsafe

theorem c1_capacity_invariant_witness :
    CapInv (applyOps emptyStore
      [Op.create eidA evCap2.title evCap2.description evCap2.date
         evCap2.location (some 2) none ownerU,
       Op.register eidA userU, Op.register eidA userV,
       Op.unregister eidA userU,
       Op.update eidA ownerU { UpdateBody.empty with capacity := some 5 }]) :=
  c1_capacity_invariant emptyStore _
    (fun _ _ _ hx => Option.noConfusion hx) (by decide)

/-! ## C3 — the no-duplicate invariant -/

/-- C3: no event ever lists a user twice: the no-duplicate invariant is
preserved by every sequence of requests (register and unregister
included), and a second register by an already-registered user is
rejected with the 400 outcome, leaving the store — hence the attendee
array — unchanged. -/
theorem c3_no_duplicate_invariant (st : Store) (ops : List Op)
    (eid : EventId) (ev : Event) (u : UserId) (hinv : NodupInv st)
    (hev : st eid = some ev) (hmem : u ∈ ev.attendees) :
    NodupInv (applyOps st ops) ∧
    register st eid u = (RegisterResult.fullOrDuplicate, st) :=
  ⟨nodupInv_applyOps ops st hinv,
    register_eq_of_reject hev (fun hc => hc.1 hmem)⟩

/-- `NodupInv` for a store holding one duplicate-free event. -/
theorem nodupInv_single {eid : EventId} {ev : Event}
    (h : ev.attendees.Nodup) : NodupInv (emptyStore.update eid ev) := by
  intro i evi hi
  simp only [Store.update] at hi
  by_cases he : i = eid
  · rw [if_pos he] at hi
    injection hi with hh
    subst hh
    exact h
  · rw [if_neg he] at hi
    exact Option.noConfusion hi

theorem c3_no_duplicate_invariant_witness :
    NodupInv (applyOps stFull
      [Op.register eidA userV, Op.unregister eidA userU]) ∧
    register stFull eidA userU = (RegisterResult.fullOrDuplicate, stFull) :=
  c3_no_duplicate_invariant stFull
    [Op.register eidA userV, Op.unregister eidA userU] eidA evFull userU
    (nodupInv_single (by decide)) (by decide) (by decide)

/-! ## C4 — cardinality guarantee for pure register runs -/

/-- The store after a sequence of register requests against one event,
first request first. -/
def registerList (eid : EventId) : Store → List UserId → Store
  | st, [] => st
  | st, u :: us => registerList eid (register st eid u).2 us

/-- How many of the register requests in the run answer 200. -/
def registerSuccesses (eid : EventId) : Store → List UserId → Nat
  | _, [] => 0
  | st, u :: us =>
      (if (register st eid u).1 = RegisterResult.fullOrDuplicate then 0 else 1) +
        registerSuccesses eid (register st eid u).2 us

/-- The number of distinct users in `us` that are not yet in `s`. -/
def newAttempts (s : List UserId) (us : List UserId) : Nat :=
  (us.toFinset.filter (fun x => x ∉ s)).card

theorem newAttempts_nil (s : List UserId) : newAttempts s [] = 0 := by
  simp [newAttempts]

theorem newAttempts_cons_mem {s : List UserId} {u : UserId}
    (us : List UserId) (h : u ∈ s) :
    newAttempts s (u :: us) = newAttempts s us := by
  unfold newAttempts
  rw [List.toFinset_cons, Finset.filter_insert, if_neg (not_not_intro h)]

theorem newAttempts_cons_not_mem {s : List UserId} {u : UserId}
    (us : List UserId) (h : u ∉ s) :
    newAttempts s (u :: us) = newAttempts (s ++ [u]) us + 1 := by
  unfold newAttempts
  rw [List.toFinset_cons, Finset.filter_insert, if_pos h]
  have hfe : us.toFinset.filter (fun x => x ∉ s ++ [u]) =
      (us.toFinset.filter (fun x => x ∉ s)).erase u := by
    ext x
    simp only [Finset.mem_erase, Finset.mem_filter, List.mem_append,
      List.mem_singleton, not_or]
    tauto
  rw [hfe]
  by_cases hu : u ∈ us.toFinset.filter (fun x => x ∉ s)
  · rw [Finset.insert_eq_self.mpr hu, Finset.card_erase_of_mem hu]
    have hpos : 0 < (us.toFinset.filter (fun x => x ∉ s)).card :=
      Finset.card_pos.mpr ⟨u, hu⟩
    omega
  · rw [Finset.card_insert_of_not_mem hu, Finset.erase_eq_of_not_mem hu]

/-- Main induction for C4: starting from a duplicate-free attendee array
within capacity, a run of register requests ends with
`min C (start + newly attempted distinct users)` attendees, and the
number of 200 answers accounts exactly for the growth. -/
theorem registerList_spec (eid : EventId) (us : List UserId) :
    ∀ (st : Store) (ev : Event) (C : Nat), st eid = some ev →
      ev.capacity = some C → ev.attendees.Nodup →
      ev.attendees.length ≤ C →
      ∃ ev', registerList eid st us eid = some ev' ∧
        ev'.attendees.length =
          min C (ev.attendees.length + newAttempts ev.attendees us) ∧
        registerSuccesses eid st us + ev.attendees.length =
          ev'.attendees.length := by
  induction us with
  | nil =>
      intro st ev C hst hcap _ hle
      refine ⟨ev, hst, ?_, ?_⟩
      · rw [newAttempts_nil, Nat.add_zero, Nat.min_eq_right hle]
      · show 0 + ev.attendees.length = ev.attendees.length
        omega
  | cons u us ih =>
      intro st ev C hst hcap hnd hle
      by_cases hcond : u ∉ ev.attendees ∧ capLt ev.attendees.length ev.capacity
      · have hreg := register_eq_of_found hst hcond.1 hcond.2
        have hst1 : (register st eid u).2 eid =
            some { ev with attendees := ev.attendees ++ [u] } := by
          rw [hreg]; exact Store.update_self _ _ _
        have hnd1 : (ev.attendees ++ [u]).Nodup := by
          rw [← addToSet_of_not_mem hcond.1]; exact addToSet_nodup hnd
        have hlt : ev.attendees.length < C := by
          have h2 := hcond.2
          rw [hcap] at h2
          exact h2
        have hle1 : (ev.attendees ++ [u]).length ≤ C := by
          rw [List.length_append, List.length_singleton]; omega
        obtain ⟨ev', h1, h2, h3⟩ := ih (register st eid u).2
          { ev with attendees := ev.attendees ++ [u] } C hst1 hcap hnd1 hle1
        have hproj : ({ ev with attendees := ev.attendees ++ [u] } : Event).attendees
            = ev.attendees ++ [u] := rfl
        rw [hproj, List.length_append, List.length_singleton] at h2 h3
        refine ⟨ev', h1, ?_, ?_⟩
        · rw [h2, newAttempts_cons_not_mem us hcond.1]
          congr 1
          omega
        · have hfst : (register st eid u).1 =
              RegisterResult.success (ev.attendees.length + 1) := by rw [hreg]
          show (if (register st eid u).1 = RegisterResult.fullOrDuplicate
              then 0 else 1) +
            registerSuccesses eid (register st eid u).2 us +
            ev.attendees.length = ev'.attendees.length
          rw [hfst, if_neg (fun hx => RegisterResult.noConfusion hx)]
          omega
      · have hreg := register_eq_of_reject hst hcond
        have hst1 : (register st eid u).2 eid = some ev := by
          rw [hreg]; exact hst
        obtain ⟨ev', h1, h2, h3⟩ := ih (register st eid u).2 ev C hst1 hcap hnd hle
        refine ⟨ev', h1, ?_, ?_⟩
        · rw [h2]
          push_neg at hcond
          by_cases hmem : u ∈ ev.attendees
          · rw [newAttempts_cons_mem us hmem]
          · have hnc := hcond hmem
            rw [hcap] at hnc
            have hnlt : ¬ ev.attendees.length < C := hnc
            have hlen : ev.attendees.length = C := by omega
            rw [newAttempts_cons_not_mem us hmem, hlen,
              min_eq_left (Nat.le_add_right C _),
              min_eq_left (Nat.le_add_right C _)]
        · have hfst : (register st eid u).1 = RegisterResult.fullOrDuplicate := by
            rw [hreg]
          show (if (register st eid u).1 = RegisterResult.fullOrDuplicate
              then 0 else 1) +
            registerSuccesses eid (register st eid u).2 us +
            ev.attendees.length = ev'.attendees.length
          rw [hfst, if_pos rfl]
          omega

/-- C4: on an event with capacity `C` and no attendees yet, any pure run
of register requests (by an arbitrary multiset of users) ends with
exactly `min C (number of distinct users who attempted)` attendees, and
exactly that many of the requests answer 200 — the rest are rejected. -/
theorem c4_cardinality_guarantee (st : Store) (eid : EventId) (ev : Event)
    (C : Nat) (us : List UserId) (hst : st eid = some ev)
    (hcap : ev.capacity = some C) (hemp : ev.attendees = []) :
    ∃ ev', registerList eid st us eid = some ev' ∧
      ev'.attendees.length = min C us.toFinset.card ∧
      registerSuccesses eid st us = min C us.toFinset.card := by
  obtain ⟨ev', h1, h2, h3⟩ := registerList_spec eid us st ev C hst hcap
    (by rw [hemp]; exact List.nodup_nil) (by rw [hemp]; exact Nat.zero_le C)
  have hnew : newAttempts ev.attendees us = us.toFinset.card := by
    rw [hemp]
    unfold newAttempts
    rw [Finset.filter_true_of_mem]
    intro x _
    simp
  have hlen0 : ev.attendees.length = 0 := by rw [hemp]; rfl
  rw [hnew, hlen0] at h2
  rw [hlen0] at h3
  rw [Nat.zero_add] at h2
  refine ⟨ev', h1, h2, ?_⟩
  omega

theorem c4_cardinality_guarantee_witness :
    ∃ ev', registerList eidA st1 [userU, userU, userV, userW] eidA
        = some ev' ∧
      ev'.attendees.length = min 2 ([userU, userU, userV, userW].toFinset.card) ∧
      registerSuccesses eidA st1 [userU, userU, userV, userW] =
        min 2 ([userU, userU, userV, userW].toFinset.card) :=
  c4_cardinality_guarantee st1 eidA evCap2 2 [userU, userU, userV, userW]
    (by decide) (by decide) (by decide)

end EventBackend
